import Mathlib

/-!
Shallow embedding of the clipboard-history core of the `clipify-app`
repository (Rust, `src-tauri/src`): the history store (`clipboard.rs`),
the text-cleanup algorithm (`clipboard_commands.rs::cleanup_text`), entry
classification (`clipboard.rs::ClipboardEntry::new`), persistence loading
(`clipboard.rs::load_history_from_file`) and the monitor tick
(`clipboard_monitor.rs::check_clipboard_change`).

Rust `String`s are modelled as Lean `String`s, working over `List Char`
(Rust `chars()` yields Unicode scalar values, exactly Lean's `Char`).
Byte-indexed operations model UTF-8 explicitly via `Char.utf8Size`.
Unicode character classes (`char::is_numeric`, `char::is_whitespace`) are
modelled on their ASCII fragment; every concrete input considered is ASCII
apart from the explicit UTF-8 boundary analysis, and generic theorems use
the same predicate on both sides.

Effects are made explicit: `Uuid::new_v4()` and `Utc::now()` become `id`
and `timestamp` parameters; a Rust panic becomes `Except.error`; the
filesystem becomes an explicit `FileState` argument.
-/

/-- Model of Rust `char::is_numeric` on its ASCII fragment (`0`-`9`). -/
def rustIsNumeric (c : Char) : Bool := c.isDigit

/-- Model of Rust `char::is_whitespace` on its ASCII fragment
(space, tab, carriage return, line feed). -/
def rustIsWhitespace (c : Char) : Bool := c.isWhitespace

/-- Rust `str::trim` on a char list: drop whitespace from both ends. -/
def trimL (l : List Char) : List Char :=
  ((l.dropWhile rustIsWhitespace).reverse.dropWhile rustIsWhitespace).reverse

/-- Rust `str::starts_with(pat)`: `startsWithL content pat`. -/
def startsWithL : List Char → List Char → Bool
  | _, [] => true
  | [], _ :: _ => false
  | c :: cs, p :: ps => c == p && startsWithL cs ps

/-- Split a char list at every `'\n'` (Rust `str::split('\n')`):
always at least one segment; a trailing newline yields a final empty
segment. -/
def splitNl : List Char → List (List Char)
  | [] => [[]]
  | c :: rest =>
    match splitNl rest with
    | [] => [[]]
    | s :: ss => if c = '\n' then [] :: s :: ss else (c :: s) :: ss

/-- Model of Rust `content.lines().count()`: lines are the `'\n'`-split
segments except that a final line terminator is optional, i.e. a trailing
empty segment produced by a final `'\n'` (or by the empty string) is not
counted as a line. A lone `'\r'` does not split (Rust `lines` only strips
a `'\r'` that precedes a `'\n'`, which never changes the count). -/
def rustLinesCount (l : List Char) : Nat :=
  let segs := splitNl l
  if segs.getLast? = some [] then segs.length - 1 else segs.length

/-- UTF-8 byte length of a char list (Rust `str::len`). -/
def utf8Len (l : List Char) : Nat := (l.map Char.utf8Size).sum

/-- Take the chars covered by the first `n` UTF-8 bytes (Rust byte-index
slicing `&s[..n]`); `none` when `n` is not a character boundary, where
Rust panics. -/
def takeBytes : List Char → Nat → Option (List Char)
  | _, 0 => some []
  | [], _ + 1 => none
  | c :: rest, n + 1 =>
    if c.utf8Size ≤ n + 1 then
      (takeBytes rest (n + 1 - c.utf8Size)).map (c :: ·)
    else none

/-- The panic message site of `ClipboardEntry::new`: `&content[..97]`
slices at a byte index that is not a char boundary. -/
def previewPanicMsg : String := "byte index 97 is not a char boundary"

/-- Preview construction from `ClipboardEntry::new` (clipboard.rs:49-54):
`if content.len() > 100 { format!("{}...", &content[..97]) } else { content }`.
`content.len()` is the UTF-8 byte length; the slice panics (modelled as
`Except.error`) off a char boundary. -/
def previewOf (content : String) : Except String String :=
  if utf8Len content.data > 100 then
    match takeBytes content.data 97 with
    | some p => .ok (String.mk (p ++ "...".data))
    | none => .error previewPanicMsg
  else .ok content

/-- Content-type detection from `ClipboardEntry::new` (clipboard.rs:36-47),
the four branches evaluated in order. -/
def contentTypeOf (content : List Char) : String :=
  if startsWithL content "http://".data || startsWithL content "https://".data then
    "url"
  else if content.contains '@' && content.contains '.' && !content.contains '\n' then
    "email"
  else if content.all (fun c =>
      rustIsNumeric c || rustIsWhitespace c || "-+().".data.contains c) then
    "phone"
  else
    "text"

/-- `has_formatting` from `ClipboardEntry::new` (clipboard.rs:31-33). -/
def hasFormattingOf (content : List Char) : Bool :=
  content.contains '\n' || content.contains '\t' ||
    content.any (fun c => rustIsWhitespace c && c != ' ')

/-- `ClipboardEntry` (clipboard.rs:11-23); `timestamp` is an abstract
instant modelled as `Nat`. -/
structure ClipboardEntry where
  id : String
  content : String
  original_content : String
  is_cleaned : Bool
  timestamp : Nat
  char_count : Nat
  line_count : Nat
  has_formatting : Bool
  content_type : String
  preview : String
deriving DecidableEq, Repr

/-- `ClipboardEntry::new` (clipboard.rs:26-68). The fresh UUID and the
current instant are passed as the `id` and `timestamp` arguments; the
possible panic of the preview slice surfaces as `Except.error`. -/
def ClipboardEntry.new? (content : String) (is_cleaned : Bool)
    (original_content : Option String) (id : String) (timestamp : Nat) :
    Except String ClipboardEntry :=
  match previewOf content with
  | .error e => .error e
  | .ok preview =>
    .ok
      { id := id
        content := content
        original_content := original_content.getD content
        is_cleaned := is_cleaned
        timestamp := timestamp
        char_count := content.data.length
        line_count := rustLinesCount content.data
        has_formatting := hasFormattingOf content.data
        content_type := contentTypeOf content.data
        preview := preview }

/-- `ClipboardHistory` (clipboard.rs:77-81). -/
structure ClipboardHistory where
  entries : List ClipboardEntry
  max_entries : Nat
deriving DecidableEq, Repr

/-- `ClipboardHistory::new` (clipboard.rs:84-89). -/
def ClipboardHistory.new (max_entries : Nat) : ClipboardHistory :=
  { entries := [], max_entries := max_entries }

/-- `ClipboardHistory::add_entry` (clipboard.rs:91-102): retain the
entries with different content, insert the new entry at the front, then
truncate to `max_entries` when over the cap. -/
def ClipboardHistory.add_entry (h : ClipboardHistory) (e : ClipboardEntry) :
    ClipboardHistory :=
  let retained := h.entries.filter (fun x => x.content != e.content)
  let inserted := e :: retained
  { entries :=
      if inserted.length > h.max_entries then inserted.take h.max_entries
      else inserted
    max_entries := h.max_entries }

/-- Fold a sequence of `add_entry` calls over a history store. -/
def ClipboardHistory.addAll (h : ClipboardHistory) (es : List ClipboardEntry) :
    ClipboardHistory :=
  es.foldl ClipboardHistory.add_entry h

/-! ## cleanup_text (clipboard_commands.rs:157-200) -/

/-- A space or tab, the blank classes of the horizontal-whitespace
collapse (clipboard_commands.rs:177-178). -/
def isBlankST (c : Char) : Bool := c == ' ' || c == '\t'

/-- Rust `str::replace("\r\n", "\n")`: leftmost non-overlapping
occurrences. -/
def replaceCrLf : List Char → List Char
  | '\r' :: '\n' :: rest => '\n' :: replaceCrLf rest
  | c :: rest => c :: replaceCrLf rest
  | [] => []

/-- Rust `str::replace("\r", "\n")` after CRLF replacement. -/
def replaceCr (l : List Char) : List Char :=
  l.map (fun c => if c = '\r' then '\n' else c)

/-- The fold over `windows(2)` (clipboard_commands.rs:168-184): for each
adjacent pair `(current, next)`, push `current` (tab turned into space)
unless both `current` and `next` are space-or-tab. Lists shorter than two
chars produce no window, hence the empty result. -/
def collapseWS : List Char → List Char
  | c :: n :: rest =>
    (if isBlankST c && isBlankST n then [] else [if c = '\t' then ' ' else c])
      ++ collapseWS (n :: rest)
  | _ => []

/-- `text.chars().last()` as a (possibly empty) one-char list, chained
after the fold (clipboard_commands.rs:186-187). -/
def lastOf (l : List Char) : List Char :=
  match l.getLast? with
  | some c => [c]
  | none => []

/-- Split at leftmost non-overlapping occurrences of `"\n\n\n"`
(Rust `str::split("\n\n\n")`, clipboard_commands.rs:195-196). -/
def splitNnn : List Char → List (List Char)
  | '\n' :: '\n' :: '\n' :: rest => [] :: splitNnn rest
  | c :: rest =>
    match splitNnn rest with
    | [] => [[c]]
    | s :: ss => (c :: s) :: ss
  | [] => [[]]

/-- `cleanup_text` (clipboard_commands.rs:157-200), the normalization
pipeline: early return for blank input; line-ending conversion; the
windows(2) horizontal-whitespace collapse followed by chaining the last
char of the original `text`; per-line trim joined by `"\n"`; the
`split("\n\n\n")`/`join("\n\n")` blank-line cap; final trim. -/
def cleanup_text (s : String) : String :=
  if s.data = [] ∨ trimL s.data = [] then ""
  else
    let t := replaceCr (replaceCrLf s.data)
    let folded := collapseWS t ++ lastOf s.data
    let lined := List.intercalate ['\n'] ((splitNl folded).map trimL)
    let capped := List.intercalate ['\n', '\n'] (splitNnn lined)
    String.mk (trimL capped)

/-! ## Persistence loading (clipboard.rs:160-177) -/

/-- The observable states of the persisted history file: absent,
unparseable, or a JSON object with an `entries` array and an optional
`max_entries` field (optional models old files that lack the field). -/
inductive FileState where
  | missing : FileState
  | invalid : FileState
  | snapshot (entries : List ClipboardEntry) (maxEntries : Option Nat) : FileState
deriving DecidableEq

/-- The serde-derived deserializer for `ClipboardHistory`
(clipboard.rs:77 `#[derive(.., Deserialize)]` with no `#[serde(default)]`):
both fields are required, so a snapshot without a `max_entries` field is
rejected with a missing-field error rather than defaulted. -/
def deserializeHistory : FileState → Except String ClipboardHistory
  | .missing => .error "file not read"
  | .invalid => .error "invalid JSON"
  | .snapshot entries maxEntries =>
    match maxEntries with
    | none => .error "missing field max_entries"
    | some m => .ok { entries := entries, max_entries := m }

/-- `load_history_from_file` (clipboard.rs:160-177) over the explicit
file state: a missing file yields `ClipboardHistory::new(10)`; otherwise
the file is deserialized (failures propagate as `io::Error`) and a parsed
`max_entries` of `0` is patched to `10`. -/
def load_history_from_file (fs : FileState) : Except String ClipboardHistory :=
  match fs with
  | .missing => .ok (ClipboardHistory.new 10)
  | fs =>
    match deserializeHistory fs with
    | .error e => .error e
    | .ok h =>
      .ok (if h.max_entries = 0 then { h with max_entries := 10 } else h)

/-! ## Monitor tick (clipboard_monitor.rs:75-111) -/

/-- One tick of `ClipboardMonitor::check_clipboard_change`, with the
clipboard read result, the `last_content` cell and the history store as
explicit inputs. Output: the new `last_content`, the new store, and
whether the `clipboard-content-changed` event was emitted. A clipboard
read error is swallowed (`Ok(())` with no mutation); blank content and
content equal to `last_content` are no-ops; otherwise `last_content` is
updated, a new entry is added, and the change event is emitted.
`Except.error` models a panic inside `ClipboardEntry::new`. -/
def check_clipboard_change (read : Except Unit String) (last : String)
    (h : ClipboardHistory) (id : String) (ts : Nat) :
    Except String (String × ClipboardHistory × Bool) :=
  match read with
  | .error _ => .ok (last, h, false)
  | .ok content =>
    if trimL content.data = [] then .ok (last, h, false)
    else if content = last then .ok (last, h, false)
    else
      match ClipboardEntry.new? content false none id ts with
      | .error e => .error e
      | .ok entry => .ok (content, h.add_entry entry, true)

/-! ## Claim-side definitions

These two definitions follow the words of the specification (not the
source), for comparison with the source-derived functions above. -/

/-- Stated rule of spec §4.1 step 2 for the horizontal-whitespace
collapse: scanning left to right, a character is dropped exactly when it
and its successor are both space-or-tab (kept tabs become spaces); the
very last character of the input is always preserved. -/
def collapseSpec : List Char → List Char
  | [] => []
  | [c] => [c]
  | c :: n :: rest =>
    if isBlankST c && isBlankST n then collapseSpec (n :: rest)
    else (if c = '\t' then ' ' else c) :: collapseSpec (n :: rest)

/-- Stated rule of the claim on `line_count`: the number of
`'\n'`-delimited segments, counting the segment after a trailing newline
and the single segment of an empty string. -/
def segmentCount (l : List Char) : Nat := (splitNl l).length

/-- Decidable equality for `Except`, so that concrete runs of the
fallible operations can be checked by `decide`. -/
instance {ε α : Type} [DecidableEq ε] [DecidableEq α] : DecidableEq (Except ε α)
  | .error e, .error f =>
    if h : e = f then .isTrue (by rw [h])
    else .isFalse (fun hh => h (by injection hh))
  | .error _, .ok _ => .isFalse (fun hh => Except.noConfusion hh)
  | .ok _, .error _ => .isFalse (fun hh => Except.noConfusion hh)
  | .ok a, .ok b =>
    if h : a = b then .isTrue (by rw [h])
    else .isFalse (fun hh => h (by injection hh))

/-- Concrete entry fixture for witnesses and scenarios: an entry whose
metadata fields are populated the way `ClipboardEntry::new` fills them
for short content. -/
def sampleEntry (id content : String) : ClipboardEntry :=
  { id := id
    content := content
    original_content := content
    is_cleaned := false
    timestamp := 0
    char_count := content.data.length
    line_count := rustLinesCount content.data
    has_formatting := hasFormattingOf content.data
    content_type := contentTypeOf content.data
    preview := content }

/-! ## Helper lemmas -/

theorem add_entry_max_entries (h : ClipboardHistory) (e : ClipboardEntry) :
    (h.add_entry e).max_entries = h.max_entries := rfl

theorem add_entry_length_le (h : ClipboardHistory) (e : ClipboardEntry) :
    (h.add_entry e).entries.length ≤ h.max_entries := by
  unfold ClipboardHistory.add_entry
  simp only
  split
  · simp only [List.length_take]
    exact Nat.min_le_left _ _
  · next hc => exact Nat.le_of_not_lt hc

/-- C1: after `add_entry e`, the store (with its positive capacity, per
the data model) holds exactly one entry whose content equals `e.content`,
and that entry is `e` itself at the front — in particular when an entry
with identical content was already present. -/
theorem c1_add_entry_dedup_front (h : ClipboardHistory) (e : ClipboardEntry)
    (hmax : 1 ≤ h.max_entries) :
    (h.add_entry e).entries.countP (fun x => x.content == e.content) = 1 ∧
    (h.add_entry e).entries.head? = some e := by
  obtain ⟨m, hm⟩ := Nat.exists_eq_add_of_le hmax
  have hfil : (h.entries.filter (fun x => x.content != e.content)).countP
      (fun x => x.content == e.content) = 0 := by
    rw [List.countP_eq_zero]
    intro a ha
    have hne := List.of_mem_filter ha
    simp only [bne_iff_ne, ne_eq] at hne
    simp [hne]
  unfold ClipboardHistory.add_entry
  simp only
  split
  · rw [hm, Nat.add_comm, List.take_succ_cons]
    constructor
    · rw [List.countP_cons_of_pos _ _ (by simp)]
      have hle := List.Sublist.countP_le (fun x => x.content == e.content)
        (List.take_sublist m (h.entries.filter (fun x => x.content != e.content)))
      omega
    · rfl
  · constructor
    · rw [List.countP_cons_of_pos _ _ (by simp)]
      omega
    · rfl

/-- Witness for C1 at a store already holding an entry with the same
content as the one being added. -/
theorem c1_add_entry_dedup_front_witness :
    ((ClipboardHistory.mk [sampleEntry "old" "X"] 5).add_entry
        (sampleEntry "fresh" "X")).entries.countP
      (fun x => x.content == (sampleEntry "fresh" "X").content) = 1 ∧
    ((ClipboardHistory.mk [sampleEntry "old" "X"] 5).add_entry
        (sampleEntry "fresh" "X")).entries.head? = some (sampleEntry "fresh" "X") :=
  c1_add_entry_dedup_front (ClipboardHistory.mk [sampleEntry "old" "X"] 5)
    (sampleEntry "fresh" "X") (by decide)

/-- C2: the cap invariant is preserved by every finite sequence of
`add_entry` calls (each intermediate state is `addAll` over a prefix of
the sequence); what `add_entry` removes beyond the front insertion is a
suffix — the tail, i.e. the oldest entries; and the concrete scenario:
with `max_entries = 3`, adding A, B, C, D leaves [D, C, B]. -/
theorem c2_cap_and_tail_eviction :
    (∀ (h : ClipboardHistory) (es : List ClipboardEntry),
        h.entries.length ≤ h.max_entries →
        (h.addAll es).entries.length ≤ (h.addAll es).max_entries) ∧
    (∀ (h : ClipboardHistory) (e : ClipboardEntry),
        (h.add_entry e).entries <+:
          e :: h.entries.filter (fun x => x.content != e.content)) ∧
    ((ClipboardHistory.new 3).addAll
        [sampleEntry "a" "A", sampleEntry "b" "B", sampleEntry "c" "C",
          sampleEntry "d" "D"]).entries.map (fun x => x.content) =
      ["D", "C", "B"] := by
  refine ⟨?_, ?_, by decide⟩
  · intro h es
    induction es generalizing h with
    | nil => intro hle; exact hle
    | cons e rest ih =>
      intro _
      have hstep : (h.add_entry e).entries.length ≤ (h.add_entry e).max_entries := by
        rw [add_entry_max_entries]
        exact add_entry_length_le h e
      exact ih (h.add_entry e) hstep
  · intro h e
    unfold ClipboardHistory.add_entry
    simp only
    split
    · exact List.take_prefix _ _
    · exact List.prefix_refl _

/-- Witness for C2 at the empty store with capacity 3 and a concrete
add sequence. -/
theorem c2_cap_and_tail_eviction_witness :
    ((ClipboardHistory.new 3).addAll
        [sampleEntry "a" "A", sampleEntry "b" "B"]).entries.length ≤
      ((ClipboardHistory.new 3).addAll
        [sampleEntry "a" "A", sampleEntry "b" "B"]).max_entries :=
  c2_cap_and_tail_eviction.1 (ClipboardHistory.new 3)
    [sampleEntry "a" "A", sampleEntry "b" "B"] (by decide)

/-- C3 (divergence at the failing input): on `"line1\n\n\n\nline2"`,
whose run of four newlines contains only one non-overlapping occurrence
of `"\n\n\n"`, `cleanup_text` leaves three consecutive newlines instead
of the two required by the claim and by the code's own comment
("Limit to max 2 consecutive line breaks"). -/
theorem c3_blank_line_cap_failing_input :
    cleanup_text "line1\n\n\n\nline2" = "line1\n\n\nline2" ∧
    cleanup_text "line1\n\n\n\nline2" ≠ "line1\n\nline2" := by
  exact ⟨rfl, by decide⟩

/-- C4 (divergence at the failing input): `cleanup_text` is not
idempotent — the partially collapsed newline run left by the first pass
is collapsed further by a second pass. -/
theorem c4_not_idempotent_failing_input :
    cleanup_text (cleanup_text "line1\n\n\n\nline2") ≠
      cleanup_text "line1\n\n\n\nline2" := by
  decide

/-- C5 (divergence at the failing input): building the preview of a
string of 96 one-byte chars followed by the two-byte `'é'` and four more
one-byte chars (102 bytes > 100) slices `&content[..97]` inside `'é'`,
which panics in Rust — entry construction is not total. -/
theorem c5_preview_panic_failing_input :
    ClipboardEntry.new? (String.mk (List.replicate 96 'a' ++ 'é' :: "bbbb".data))
      false none "i" 0 = Except.error previewPanicMsg := by
  rfl

/-- C7 (divergence at the failing input): a persisted snapshot that
lacks the `max_entries` field fails serde deserialization (no
`#[serde(default)]`), so `load_history_from_file` returns an error
instead of a store with `max_entries = 10`; the other two halves of the
claim do hold — a missing file yields a fresh store with cap 10, and a
parsed `max_entries` of 0 is patched to 10. -/
theorem c7_load_missing_field_failing_input :
    load_history_from_file (FileState.snapshot [] none) =
      Except.error "missing field max_entries" ∧
    load_history_from_file FileState.missing =
      Except.ok (ClipboardHistory.new 10) ∧
    load_history_from_file (FileState.snapshot [] (some 0)) =
      Except.ok { entries := [], max_entries := 10 } := by
  exact ⟨rfl, rfl, rfl⟩

theorem lastOf_cons_cons (a b : Char) (l : List Char) :
    lastOf (a :: b :: l) = lastOf (b :: l) := by
  simp [lastOf, List.getLast?_cons_cons]

theorem collapseSpec_ne_nil (c : Char) (l : List Char) :
    collapseSpec (c :: l) ≠ [] := by
  induction l generalizing c with
  | nil => simp [collapseSpec]
  | cons n rest ih =>
    unfold collapseSpec
    split
    · exact ih n
    · simp

theorem collapseSpec_getLast (l : List Char) :
    (collapseSpec l).getLast? = l.getLast? := by
  induction l with
  | nil => rfl
  | cons c rest ih =>
    cases rest with
    | nil => rfl
    | cons n rest' =>
      rw [List.getLast?_cons_cons]
      unfold collapseSpec
      split
      · exact ih
      · cases hcs : collapseSpec (n :: rest') with
        | nil => exact absurd hcs (collapseSpec_ne_nil n rest')
        | cons y ys => rw [List.getLast?_cons_cons, ← hcs]; exact ih

theorem collapseWS_chain_last_eq_spec (l : List Char) :
    collapseWS l ++ lastOf l = collapseSpec l := by
  induction l with
  | nil => rfl
  | cons c rest ih =>
    cases rest with
    | nil => rfl
    | cons n rest' =>
      rw [lastOf_cons_cons]
      unfold collapseWS collapseSpec
      rw [List.append_assoc, ih]
      split
      · simp
      · simp

/-- C6: the horizontal-whitespace collapse step (the `windows(2)` fold
chained with the last input character) equals the stated rule — drop a
character exactly when it and its successor are both space-or-tab, keep
the rest (tabs as spaces) — so the last character of a blank run is kept;
the very last character of the input is always preserved by the step;
and `cleanup_text "Hello,   World!\t\tFoo" = "Hello, World! Foo"`. -/
theorem c6_whitespace_collapse_rule :
    (∀ l : List Char, collapseWS l ++ lastOf l = collapseSpec l) ∧
    (∀ l : List Char, (collapseWS l ++ lastOf l).getLast? = l.getLast?) ∧
    cleanup_text "Hello,   World!\t\tFoo" = "Hello, World! Foo" := by
  refine ⟨collapseWS_chain_last_eq_spec, ?_, by decide⟩
  intro l
  rw [collapseWS_chain_last_eq_spec]
  exact collapseSpec_getLast l

theorem splitNl_ne_nil (l : List Char) : splitNl l ≠ [] := by
  cases l with
  | nil => simp [splitNl]
  | cons c rest =>
    unfold splitNl
    cases h : splitNl rest with
    | nil => simp
    | cons s ss =>
      split
      · simp
      · split <;> simp

theorem splitNl_length (l : List Char) :
    (splitNl l).length = l.count '\n' + 1 := by
  induction l with
  | nil => simp [splitNl]
  | cons c rest ih =>
    unfold splitNl
    cases h : splitNl rest with
    | nil => exact absurd h (splitNl_ne_nil rest)
    | cons s ss =>
      rw [h] at ih
      simp only [List.length_cons] at ih
      by_cases hc : c = '\n'
      · subst hc
        simp [List.count_cons, ih]
      · simp [List.count_cons, hc]
        omega

theorem splitNl_cons_eq (c : Char) (rest s : List Char) (ss : List (List Char))
    (h : splitNl rest = s :: ss) :
    splitNl (c :: rest) = if c = '\n' then [] :: s :: ss else (c :: s) :: ss := by
  unfold splitNl
  rw [h]

theorem splitNl_getLast_empty (l : List Char) :
    ((splitNl l).getLast? = some []) ↔ (l = [] ∨ l.getLast? = some '\n') := by
  induction l with
  | nil => simp [splitNl]
  | cons c rest ih =>
    cases h : splitNl rest with
    | nil => exact absurd h (splitNl_ne_nil rest)
    | cons s ss =>
      rw [h] at ih
      rw [splitNl_cons_eq c rest s ss h]
      by_cases hc : c = '\n'
      · subst hc
        rw [if_pos rfl, List.getLast?_cons_cons, ih]
        cases rest with
        | nil => simp
        | cons r rs => simp [List.getLast?_cons_cons]
      · rw [if_neg hc]
        cases ss with
        | nil =>
          have hmem : '\n' ∉ rest := by
            rw [← List.count_eq_zero]
            have := splitNl_length rest
            rw [h] at this
            simp at this
            omega
          rw [show ((c :: s) :: ([] : List (List Char))).getLast? = some (c :: s) from rfl]
          constructor
          · intro hes
            exact absurd (Option.some.inj hes) (by simp)
          · intro hes
            rcases hes with hes | hes
            · exact absurd hes (by simp)
            · exfalso
              cases hr : rest with
              | nil =>
                rw [hr] at hes
                simp at hes
                exact hc hes
              | cons r rs =>
                rw [hr] at hes
                rw [List.getLast?_cons_cons] at hes
                have hin := List.mem_of_mem_getLast? hes
                rw [← hr] at hin
                exact hmem hin
        | cons t ts =>
          have hrest_ne : rest ≠ [] := by
            intro hr
            rw [hr] at h
            simp [splitNl] at h
          rw [List.getLast?_cons_cons] at ih ⊢
          rw [ih]
          cases rest with
          | nil => exact absurd rfl hrest_ne
          | cons r rs => simp [List.getLast?_cons_cons]

/-- C9 (counterexample): for empty content the entry's `line_count` is 0
(Rust `lines()` yields no line), not the single `'\n'`-delimited segment
the claim asserts. -/
theorem c9_line_count_counterexample :
    (ClipboardEntry.new? "" false none "i" 0).map (fun e => e.line_count) ≠
      Except.ok (segmentCount "".data) := by
  decide

/-- C9 (amended): every constructed entry has `char_count` equal to the
number of Unicode scalar values of the content, and `line_count` equal to
the number of `'\n'`-delimited segments EXCEPT that the final empty
segment produced by a trailing newline — or by the empty string — is not
counted (Rust `lines()` semantics). -/
theorem c9_char_and_line_count (content : String) (id : String) (ts : Nat)
    (e : ClipboardEntry)
    (he : ClipboardEntry.new? content false none id ts = Except.ok e) :
    e.char_count = content.data.length ∧
    segmentCount content.data = content.data.count '\n' + 1 ∧
    e.line_count =
      (if content.data = [] ∨ content.data.getLast? = some '\n'
       then segmentCount content.data - 1 else segmentCount content.data) := by
  unfold ClipboardEntry.new? at he
  cases hp : previewOf content with
  | error er => rw [hp] at he; exact absurd he (by simp)
  | ok pv =>
    rw [hp] at he
    injection he with he
    subst he
    refine ⟨rfl, splitNl_length _, ?_⟩
    show rustLinesCount content.data = _
    unfold rustLinesCount segmentCount
    simp only
    by_cases hcase : (splitNl content.data).getLast? = some []
    · rw [if_pos hcase, if_pos ((splitNl_getLast_empty _).mp hcase)]
    · rw [if_neg hcase, if_neg (fun hh => hcase ((splitNl_getLast_empty _).mpr hh))]

/-- Witness for the amended C9 at content `"a\nb"`. -/
theorem c9_char_and_line_count_witness :
    (ClipboardEntry.mk "w" "a\nb" "a\nb" false 1 3 2 true "text" "a\nb").char_count =
      "a\nb".data.length ∧
    segmentCount "a\nb".data = "a\nb".data.count '\n' + 1 ∧
    (ClipboardEntry.mk "w" "a\nb" "a\nb" false 1 3 2 true "text" "a\nb").line_count =
      (if "a\nb".data = [] ∨ "a\nb".data.getLast? = some '\n'
       then segmentCount "a\nb".data - 1 else segmentCount "a\nb".data) :=
  c9_char_and_line_count "a\nb" "w" 1
    (ClipboardEntry.mk "w" "a\nb" "a\nb" false 1 3 2 true "text" "a\nb") (by decide)

theorem utf8Size_one_of_ascii (c : Char) (h : c.val.toNat ≤ 127) :
    c.utf8Size = 1 := by
  unfold Char.utf8Size
  simp only
  rw [if_pos]
  rw [UInt32.le_def, BitVec.le_def]
  exact h

theorem phone_char_utf8Size (c : Char)
    (h : (rustIsNumeric c || rustIsWhitespace c || "-+().".data.contains c) = true) :
    c.utf8Size = 1 := by
  apply utf8Size_one_of_ascii
  simp only [Bool.or_eq_true] at h
  rcases h with (h | h) | h
  · simp only [rustIsNumeric, Char.isDigit, Bool.and_eq_true, decide_eq_true_eq] at h
    obtain ⟨h1, h2⟩ := h
    rw [UInt32.le_def, BitVec.le_def] at h2
    exact le_trans h2 (by decide)
  · simp only [rustIsWhitespace, Char.isWhitespace, Bool.or_eq_true,
      decide_eq_true_eq] at h
    rcases h with ((h | h) | h) | h <;> subst h <;> decide
  · have hm : c ∈ "-+().".data := by
      simpa using h
    fin_cases hm <;> decide

theorem utf8Len_ascii (l : List Char) (h : ∀ c ∈ l, c.utf8Size = 1) :
    utf8Len l = l.length := by
  induction l with
  | nil => rfl
  | cons c rest ih =>
    have ih' := ih (fun x hx => h x (List.mem_cons_of_mem c hx))
    unfold utf8Len at ih' ⊢
    simp only [List.map_cons, List.sum_cons]
    rw [h c (List.mem_cons_self c rest), ih']
    simp [Nat.add_comm]

theorem takeBytes_ascii (l : List Char) (n : Nat) (h : ∀ c ∈ l, c.utf8Size = 1)
    (hn : n ≤ l.length) : takeBytes l n = some (l.take n) := by
  induction l generalizing n with
  | nil =>
    cases n with
    | zero => rfl
    | succ m => simp at hn
  | cons c rest ih =>
    cases n with
    | zero => rfl
    | succ m =>
      unfold takeBytes
      rw [h c (List.mem_cons_self c rest)]
      rw [if_pos (by omega)]
      rw [show m + 1 - 1 = m from rfl]
      rw [ih m (fun x hx => h x (List.mem_cons_of_mem c hx)) (by simpa using hn)]
      simp [List.take_succ_cons]

/-- C10: whenever every character of the content is numeric, whitespace
or one of `-+().` (the code's own predicate), the constructed entry's
`content_type` is `"phone"` — the `url` and `email` branches cannot fire
because `h` and `@` are not such characters, and the preview slice cannot
panic because such characters are one UTF-8 byte each. -/
theorem c10_phone_classification (content : String) (id : String) (ts : Nat)
    (hc : ∀ c ∈ content.data,
        (rustIsNumeric c || rustIsWhitespace c || "-+().".data.contains c) = true) :
    (ClipboardEntry.new? content false none id ts).map (fun e => e.content_type) =
      Except.ok "phone" := by
  have hall1 : ∀ c ∈ content.data, c.utf8Size = 1 :=
    fun c hm => phone_char_utf8Size c (hc c hm)
  have hatb : content.data.contains '@' = false := by
    cases hb : content.data.contains '@' with
    | false => rfl
    | true =>
      have hm : '@' ∈ content.data := by simpa using hb
      exact absurd (hc '@' hm) (by decide)
  have hurl : ∀ ps, startsWithL content.data ('h' :: ps) = false := by
    intro ps
    cases hd : content.data with
    | nil => rfl
    | cons x xs =>
      have hx := hc x (by rw [hd]; exact List.mem_cons_self x xs)
      have hne : x ≠ 'h' := by
        intro hxh; rw [hxh] at hx; exact absurd hx (by decide)
      simp [startsWithL, hne]
  have hallp : content.data.all
      (fun c => rustIsNumeric c || rustIsWhitespace c || "-+().".data.contains c) =
      true := List.all_eq_true.mpr hc
  have hct : contentTypeOf content.data = "phone" := by
    unfold contentTypeOf
    rw [show ("http://".data) = 'h' :: "ttp://".data from rfl,
        show ("https://".data) = 'h' :: "ttps://".data from rfl]
    rw [hurl "ttp://".data, hurl "ttps://".data, hatb, hallp]
    simp
  have hpre : ∃ pv, previewOf content = Except.ok pv := by
    unfold previewOf
    by_cases hlen : utf8Len content.data > 100
    · rw [if_pos hlen]
      rw [takeBytes_ascii content.data 97 hall1
        (by rw [utf8Len_ascii content.data hall1] at hlen; omega)]
      exact ⟨_, rfl⟩
    · rw [if_neg hlen]
      exact ⟨_, rfl⟩
  obtain ⟨pv, hpv⟩ := hpre
  unfold ClipboardEntry.new?
  rw [hpv]
  simp [Except.map, hct]

/-- Witness for C10 at the empty content: the rule holds vacuously and
the empty entry is classified `"phone"`, not `"text"`. -/
theorem c10_phone_classification_witness :
    (ClipboardEntry.new? "" false none "w" 0).map (fun e => e.content_type) =
      Except.ok "phone" :=
  c10_phone_classification "" "w" 0 (by decide)

/-- C8: a tick whose clipboard read fails, yields blank (whitespace-only)
content, or yields content equal to the last-observed value performs no
store mutation, leaves `last_content` unchanged and emits no event; and
any tick that mutates the store or emits the change event must have read
non-blank content different from the last-observed value. -/
theorem c8_tick_noop_conditions (read : Except Unit String) (last : String)
    (h : ClipboardHistory) (id : String) (ts : Nat) :
    (∀ content, read = Except.ok content →
        (trimL content.data = [] ∨ content = last) →
        check_clipboard_change read last h id ts = Except.ok (last, h, false)) ∧
    (∀ u, read = Except.error u →
        check_clipboard_change read last h id ts = Except.ok (last, h, false)) ∧
    (∀ last' h' emitted,
        check_clipboard_change read last h id ts = Except.ok (last', h', emitted) →
        h' ≠ h ∨ emitted = true →
        ∃ content, read = Except.ok content ∧
          trimL content.data ≠ [] ∧ content ≠ last) := by
  refine ⟨?_, ?_, ?_⟩
  · rintro content rfl hcond
    rcases hcond with hblank | heq
    · simp [check_clipboard_change, hblank]
    · subst heq
      simp only [check_clipboard_change]
      split
      · rfl
      · simp
  · rintro u rfl
    rfl
  · intro last' h' emitted hres hmut
    cases read with
    | error u =>
      simp only [check_clipboard_change, Except.ok.injEq, Prod.mk.injEq] at hres
      rcases hmut with hm | hm
      · exact absurd hres.2.1.symm hm
      · rw [← hres.2.2] at hm
        exact absurd hm (by decide)
    | ok content =>
      simp only [check_clipboard_change] at hres
      by_cases hblank : trimL content.data = []
      · rw [if_pos hblank] at hres
        simp only [Except.ok.injEq, Prod.mk.injEq] at hres
        rcases hmut with hm | hm
        · exact absurd hres.2.1.symm hm
        · rw [← hres.2.2] at hm
          exact absurd hm (by decide)
      · by_cases heq : content = last
        · rw [if_neg hblank, if_pos heq] at hres
          simp only [Except.ok.injEq, Prod.mk.injEq] at hres
          rcases hmut with hm | hm
          · exact absurd hres.2.1.symm hm
          · rw [← hres.2.2] at hm
            exact absurd hm (by decide)
        · exact ⟨content, rfl, hblank, heq⟩

/-- Witness for C8 at a tick that reads content identical to the
last-observed value. -/
theorem c8_tick_noop_conditions_witness :
    check_clipboard_change (Except.ok "x") "x" (ClipboardHistory.new 10) "i" 0 =
      Except.ok ("x", ClipboardHistory.new 10, false) :=
  (c8_tick_noop_conditions (Except.ok "x") "x" (ClipboardHistory.new 10) "i" 0).1
    "x" rfl (Or.inr rfl)
